import Mathlib

/-!
Verification of the segment scheduling and statistics engine of a
browser-based video render demo.

The engine (one utility module) partitions a video duration into
fixed-length segments (`createVideoSegments`), simulates per-segment
processing with progress callbacks (`simulateSegmentProcessing`) under two
scheduling policies (`processSequentially`, `processParallel`), and
aggregates timing statistics (`calculateStats`).  The orchestration page
holds the job state (`updateSegment`, `handleReset`).

Modelling conventions:
* JS numbers are modelled as rationals (`ℚ`).
* `Math.max(...list)` on an empty spread is `-Infinity` in JS; it is
  modelled by `List.maximum : List ℚ → WithBot ℚ`, whose value on `[]` is
  `⊥`.  `WithBot` addition satisfies `⊥ + x = ⊥`, matching
  `-Infinity + 500 = -Infinity`.
* `Math.ceil` / `Math.floor` on rationals are `Int.ceil` / `Int.floor`;
  `Array.from {length := n}` coerces a negative or `NaN` length to `0`,
  modelled by `Int.toNat` (and by the `nan` case of `JSDur`).
* `Math.random()` is an explicit parameter `r` with `0 ≤ r < 1`.
* Promise completion order in the parallel policy is an explicit arrival
  list of task indices; `Promise.all` keeps one result slot per task and
  resolves with the slots in task order.
-/

namespace VideoRender

/-- Segment status, from `src/types/video.ts` (`SegmentStatus`). -/
inductive SegmentStatus
  | pending
  | processing
  | completed
  | error
deriving DecidableEq, Repr

/-- Processing mode, from `src/types/video.ts` (`ProcessingMode`). -/
inductive ProcessingMode
  | sequential
  | parallel
deriving DecidableEq, Repr

/-- Video filter, from `src/types/video.ts` (`VideoFilter`). -/
inductive VideoFilter
  | grayscale
  | blur
  | edge
  | colorboost
deriving DecidableEq, Repr

/-- One time-bounded slice of the source video, from `src/types/video.ts`
(`VideoSegment`). -/
structure VideoSegment where
  id : ℕ
  status : SegmentStatus
  progress : ℚ
  startTime : ℚ
  endTime : ℚ
  processingTime : Option ℚ
deriving DecidableEq, Repr

/-- `const SEGMENT_DURATION = 10` (seconds). -/
def SEGMENT_DURATION : ℚ := 10

/-- `const SIMULATED_PROCESSING_BASE = 800` (ms per segment base time). -/
def SIMULATED_PROCESSING_BASE : ℚ := 800

/-- `createVideoSegments` from the processing module:
`segmentCount = Math.ceil(duration / SEGMENT_DURATION)` and
`Array.from({length: segmentCount}, (_, i) => ({id: i, status: 'pending',
progress: 0, startTime: i * SEGMENT_DURATION,
endTime: Math.min((i + 1) * SEGMENT_DURATION, duration)}))`.
`Array.from` coerces a non-positive length to `0` (`Int.toNat`). -/
def createVideoSegments (duration : ℚ) : List VideoSegment :=
  let segmentCount : ℕ := (⌈duration / SEGMENT_DURATION⌉).toNat
  (List.range segmentCount).map (fun i =>
    { id := i
      status := .pending
      progress := 0
      startTime := (i : ℚ) * SEGMENT_DURATION
      endTime := min (((i : ℚ) + 1) * SEGMENT_DURATION) duration
      processingTime := none })

/-- A JS duration value as received from video metadata: either a finite
number (a rational) or `NaN`.  (`video.duration` can be `NaN` before
metadata loads.) -/
inductive JSDur
  | num (q : ℚ)
  | nan
deriving DecidableEq, Repr

/-- `createVideoSegments` on a possibly-`NaN` duration:
`Math.ceil(NaN / 10)` is `NaN` and `Array.from({length: NaN})` coerces the
length to `0`, so the `NaN` case yields the empty list. -/
def createVideoSegmentsJS : JSDur → List VideoSegment
  | .nan => []
  | .num q => createVideoSegments q

/-- The durations claim C10 ranges over: non-positive or `NaN`. -/
def durOutOfContract : JSDur → Prop
  | .nan => True
  | .num q => q ≤ 0

lemma createVideoSegments_length (D : ℚ) :
    (createVideoSegments D).length = (⌈D / SEGMENT_DURATION⌉).toNat := by
  simp [createVideoSegments]

lemma createVideoSegments_nonpos {D : ℚ} (hD : D ≤ 0) :
    createVideoSegments D = [] := by
  have hceil : ⌈D / SEGMENT_DURATION⌉ ≤ 0 := by
    rw [show (0 : ℤ) = ((0 : ℕ) : ℤ) from rfl, Int.ceil_le]
    have : D / SEGMENT_DURATION ≤ 0 := by
      apply div_nonpos_of_nonpos_of_nonneg hD
      norm_num [SEGMENT_DURATION]
    simpa using this
  have : (⌈D / SEGMENT_DURATION⌉).toNat = 0 := Int.toNat_of_nonpos hceil
  simp [createVideoSegments, this]

/-- C8 counterexample: at duration `-5` the partitioner silently returns the
empty (zero-segment) list; no rejection is surfaced, contradicting the claim
that the engine rejects such inputs. -/
theorem c8_partitioner_no_reject_counterexample :
    createVideoSegmentsJS (.num (-5)) = [] :=
  createVideoSegments_nonpos (by norm_num)

/-- C8 (amended): for every non-positive duration, and for `NaN`,
`createVideoSegments` silently returns the empty segment list; the engine
surfaces no rejected result for such inputs. -/
theorem c8_partitioner_absorbs_bad_duration (d : JSDur)
    (h : durOutOfContract d) :
    createVideoSegmentsJS d = [] := by
  cases d with
  | nan => rfl
  | num q => exact createVideoSegments_nonpos h

/-- C8 witness: the amended theorem applied at the concrete duration `-3`. -/
theorem c8_partitioner_absorbs_bad_duration_witness :
    createVideoSegmentsJS (.num (-3)) = [] :=
  c8_partitioner_absorbs_bad_duration (.num (-3)) (by simp [durOutOfContract])

/-- C10: `createVideoSegments` is total at this entry point: for every
duration that is non-positive or `NaN` it returns the empty segment list
(no throw, no rejection — the out-of-contract input is absorbed silently).
Totality is inherent in the function being a Lean `def`. -/
theorem c10_partitioner_total_on_bad_input (d : JSDur)
    (h : durOutOfContract d) :
    createVideoSegmentsJS d = [] ∧ (createVideoSegmentsJS d).length = 0 := by
  cases d with
  | nan => exact ⟨rfl, rfl⟩
  | num q =>
      have := createVideoSegments_nonpos (D := q) h
      exact ⟨this, by simp [createVideoSegmentsJS, this]⟩

/-- C10 witness: the theorem applied at the concrete input `NaN`. -/
theorem c10_partitioner_total_on_bad_input_witness :
    createVideoSegmentsJS .nan = [] ∧ (createVideoSegmentsJS .nan).length = 0 :=
  c10_partitioner_total_on_bad_input .nan trivial

/-! ### C1: partition correctness -/

lemma SEGMENT_DURATION_pos : (0 : ℚ) < SEGMENT_DURATION := by
  norm_num [SEGMENT_DURATION]

lemma createVideoSegments_getElem? (D : ℚ) (i : ℕ)
    (hi : i < (createVideoSegments D).length) :
    (createVideoSegments D)[i]? = some
      { id := i, status := .pending, progress := 0,
        startTime := (i : ℚ) * SEGMENT_DURATION,
        endTime := min (((i : ℚ) + 1) * SEGMENT_DURATION) D,
        processingTime := none } := by
  rw [createVideoSegments_length] at hi
  simp [createVideoSegments, List.getElem?_map, List.getElem?_range, hi]

lemma index_mul_lt_duration {D : ℚ} {i : ℕ}
    (hi : i < (⌈D / SEGMENT_DURATION⌉).toNat) :
    (i : ℚ) * SEGMENT_DURATION < D := by
  have h1 : (i : ℤ) < ⌈D / SEGMENT_DURATION⌉ := Int.lt_toNat.mp hi
  have h2 : (i : ℚ) < D / SEGMENT_DURATION := by
    exact_mod_cast Int.lt_ceil.mp h1
  calc (i : ℚ) * SEGMENT_DURATION
      < (D / SEGMENT_DURATION) * SEGMENT_DURATION :=
        (mul_lt_mul_right SEGMENT_DURATION_pos).mpr h2
    _ = D := div_mul_cancel₀ D (ne_of_gt SEGMENT_DURATION_pos)

/-- C1: for every duration `D > 0`, `createVideoSegments` returns exactly
`⌈D / 10⌉` segments; segment `i` has `id = i`, `startTime = i * 10`,
`endTime = min ((i+1) * 10) D`, status `pending`, progress `0`, and no
`processingTime`; the `[startTime, endTime)` ranges are contiguous and
non-overlapping and their union is exactly `[0, D)`. -/
theorem c1_segment_partition (D : ℚ) (hD : 0 < D) :
    ((createVideoSegments D).length : ℤ) = ⌈D / 10⌉ ∧
    (∀ i : ℕ, i < (createVideoSegments D).length →
      (createVideoSegments D)[i]? = some
        { id := i, status := .pending, progress := 0,
          startTime := (i : ℚ) * 10,
          endTime := min (((i : ℚ) + 1) * 10) D,
          processingTime := none }) ∧
    (∀ i : ℕ, i + 1 < (createVideoSegments D).length →
      ((createVideoSegments D)[i]?.map VideoSegment.endTime)
        = ((createVideoSegments D)[i + 1]?.map VideoSegment.startTime)) ∧
    (∀ x : ℚ, (0 ≤ x ∧ x < D) ↔
      ∃ i : ℕ, ∃ s : VideoSegment, (createVideoSegments D)[i]? = some s ∧
        s.startTime ≤ x ∧ x < s.endTime) ∧
    (∀ x : ℚ, ∀ i j : ℕ, ∀ si sj : VideoSegment,
      (createVideoSegments D)[i]? = some si →
      (createVideoSegments D)[j]? = some sj →
      si.startTime ≤ x → x < si.endTime →
      sj.startTime ≤ x → x < sj.endTime → i = j) := by
  have hceil_nonneg : (0 : ℤ) ≤ ⌈D / (10 : ℚ)⌉ :=
    le_of_lt (Int.ceil_pos.mpr (div_pos hD (by norm_num)))
  have hlen : (createVideoSegments D).length = (⌈D / (10 : ℚ)⌉).toNat :=
    createVideoSegments_length D
  have helem : ∀ i : ℕ, i < (createVideoSegments D).length →
      (createVideoSegments D)[i]? = some
        { id := i, status := .pending, progress := 0,
          startTime := (i : ℚ) * 10,
          endTime := min (((i : ℚ) + 1) * 10) D,
          processingTime := none } := fun i hi =>
    createVideoSegments_getElem? D i hi
  have hsome_eq : ∀ i : ℕ, ∀ s : VideoSegment,
      (createVideoSegments D)[i]? = some s →
      i < (createVideoSegments D).length ∧
        s = { id := i, status := .pending, progress := 0,
              startTime := (i : ℚ) * 10,
              endTime := min (((i : ℚ) + 1) * 10) D,
              processingTime := none } := by
    intro i s hget
    have hi : i < (createVideoSegments D).length := by
      by_contra h
      push_neg at h
      rw [List.getElem?_eq_none h] at hget
      exact Option.noConfusion hget
    have hform := helem i hi
    rw [hget] at hform
    exact ⟨hi, Option.some.inj hform⟩
  refine ⟨?_, helem, ?_, ?_, ?_⟩
  · rw [hlen, Int.toNat_of_nonneg hceil_nonneg]
  · intro i hi
    have hi' : i < (createVideoSegments D).length := by omega
    rw [helem i hi', helem (i + 1) hi]
    have hlt : ((i + 1 : ℕ) : ℚ) * SEGMENT_DURATION < D := by
      rw [hlen] at hi
      exact index_mul_lt_duration hi
    have hmin : min (((i : ℚ) + 1) * 10) D = ((i : ℚ) + 1) * 10 := by
      apply min_eq_left
      apply le_of_lt
      calc ((i : ℚ) + 1) * 10 = ((i + 1 : ℕ) : ℚ) * SEGMENT_DURATION := by
            push_cast [SEGMENT_DURATION]; ring
        _ < D := hlt
    simp only [Option.map_some']
    congr 1
    rw [hmin]
    push_cast
    ring
  · intro x
    constructor
    · rintro ⟨hx0, hxD⟩
      have hfl_nonneg : (0 : ℤ) ≤ ⌊x / (10 : ℚ)⌋ :=
        Int.floor_nonneg.mpr (by positivity)
      set k : ℕ := (⌊x / (10 : ℚ)⌋).toNat with hk
      have hkcast : ((k : ℤ)) = ⌊x / (10 : ℚ)⌋ := Int.toNat_of_nonneg hfl_nonneg
      have hkQ : ((k : ℚ)) = ((⌊x / (10 : ℚ)⌋ : ℤ) : ℚ) := by
        exact_mod_cast congrArg (fun z : ℤ => (z : ℚ)) hkcast
      have hfl_le : ((⌊x / (10 : ℚ)⌋ : ℤ) : ℚ) ≤ x / 10 := Int.floor_le _
      have hfl_lt : x / 10 < ((⌊x / (10 : ℚ)⌋ : ℤ) : ℚ) + 1 :=
        Int.lt_floor_add_one _
      have hceil_ge : D / 10 ≤ ((⌈D / (10 : ℚ)⌉ : ℤ) : ℚ) := Int.le_ceil _
      have hklt : k < (createVideoSegments D).length := by
        rw [hlen, Int.lt_toNat, hkcast]
        have hQ : ((⌊x / (10 : ℚ)⌋ : ℤ) : ℚ) < ((⌈D / (10 : ℚ)⌉ : ℤ) : ℚ) := by
          linarith
        exact_mod_cast hQ
      refine ⟨k, _, helem k hklt, ?_, ?_⟩
      · show (k : ℚ) * 10 ≤ x
        rw [hkQ]
        linarith
      · show x < min (((k : ℚ) + 1) * 10) D
        apply lt_min _ hxD
        rw [hkQ]
        linarith
    · rintro ⟨i, s, hget, hsx, hxs⟩
      obtain ⟨hi, rfl⟩ := hsome_eq i s hget
      constructor
      · have h0 : (0 : ℚ) ≤ (i : ℚ) * 10 := by positivity
        exact le_trans h0 hsx
      · exact lt_of_lt_of_le hxs (min_le_right _ _)
  · intro x i j si sj hgi hgj h1 h2 h3 h4
    obtain ⟨hi, rfl⟩ := hsome_eq i si hgi
    obtain ⟨hj, rfl⟩ := hsome_eq j sj hgj
    dsimp only at h1 h2 h3 h4
    have hi2 : x < ((i : ℚ) + 1) * 10 := lt_of_lt_of_le h2 (min_le_left _ _)
    have hj2 : x < ((j : ℚ) + 1) * 10 := lt_of_lt_of_le h4 (min_le_left _ _)
    have hfi : ⌊x / (10 : ℚ)⌋ = (i : ℤ) := by
      rw [Int.floor_eq_iff]
      constructor
      · push_cast
        linarith
      · push_cast
        linarith
    have hfj : ⌊x / (10 : ℚ)⌋ = (j : ℤ) := by
      rw [Int.floor_eq_iff]
      constructor
      · push_cast
        linarith
      · push_cast
        linarith
    have : (i : ℤ) = (j : ℤ) := hfi ▸ hfj
    exact_mod_cast this

/-- C1 witness: the theorem applied at the concrete duration `D = 25`,
which yields `⌈25 / 10⌉ = 3` segments. -/
theorem c1_segment_partition_witness :
    (0 : ℚ) < 25 ∧ (createVideoSegments 25).length = 3 := by
  refine ⟨by simp, ?_⟩
  have h := (c1_segment_partition 25 (by simp)).1
  have h3 : ⌈(25 : ℚ) / 10⌉ = 3 := by
    rw [Int.ceil_eq_iff]
    norm_num
  rw [h3] at h
  exact_mod_cast h

/-! ### Statistics aggregator (`calculateStats`) -/

/-- A computed run snapshot, from `src/types/video.ts` (`ProcessingStats`).
`totalTime` and `sequentialTime` live in `WithBot ℚ` because
`Math.max(...[])` is `-Infinity` (`⊥`); `parallelTime` is `Option`-valued
because the source sets it to `undefined` in sequential mode. -/
structure ProcessingStats where
  totalTime : WithBot ℚ
  perSegmentTimes : List ℚ
  cpuCores : ℕ
  speedupFactor : ℚ
  sequentialTime : WithBot ℚ
  parallelTime : Option (WithBot ℚ)

/-- JS `Math.round`: the closest integer, halves rounding toward `+∞`. -/
def jsRound (q : ℚ) : ℤ := ⌊q + 1 / 2⌋

/-- `estimatedSequential / totalTime` where `totalTime` may be `⊥`
(`-Infinity`): there JS gives `-0`, numerically `0`.  (A finite zero
divisor cannot arise from positive segment times, since the parallel total
is then `max + 500 > 0`.) -/
def divByTotal (a : ℚ) : WithBot ℚ → ℚ :=
  WithBot.recBotCoe 0 (fun b => a / b)

lemma divByTotal_coe (a b : ℚ) : divByTotal a ((b : ℚ) : WithBot ℚ) = a / b :=
  rfl

/-- `calculateStats` from the processing module.  `segmentTimes.reduce((a,
b) => a + b, 0)` is `foldl (+) 0`; `Math.max(...segmentTimes)` is
`List.maximum` (`⊥` = `-Infinity` on the empty list) and `+ 500` is the
merge overhead; the optional `sequentialTime` argument falls back to the
sum when absent or `0` (JS `||` treats `0` as falsy); `speedupFactor` is
`estimatedSequential / totalTime` in parallel mode and `1` otherwise,
then `Math.round(x * 100) / 100`; `parallelTime` is `undefined` (`none`)
in sequential mode.  `cpuCores` (`navigator.hardwareConcurrency || 4`) is
an environment value passed in explicitly. -/
def calculateStats (segmentTimes : List ℚ) (mode : ProcessingMode)
    (sequentialTime? : Option ℚ) (cpuCores : ℕ) : ProcessingStats :=
  let totalTime : WithBot ℚ :=
    match mode with
    | .sequential => ((segmentTimes.foldl (· + ·) 0 : ℚ) : WithBot ℚ)
    | .parallel => segmentTimes.maximum + ((500 : ℚ) : WithBot ℚ)
  let estimatedSequential : ℚ :=
    match sequentialTime? with
    | some v => if v = 0 then segmentTimes.foldl (· + ·) 0 else v
    | none => segmentTimes.foldl (· + ·) 0
  let speedupFactor : ℚ :=
    match mode with
    | .parallel => divByTotal estimatedSequential totalTime
    | .sequential => 1
  { totalTime := totalTime
    perSegmentTimes := segmentTimes
    cpuCores := cpuCores
    speedupFactor := (jsRound (speedupFactor * 100) : ℚ) / 100
    sequentialTime :=
      match mode with
      | .sequential => totalTime
      | .parallel => ((estimatedSequential : ℚ) : WithBot ℚ)
    parallelTime :=
      match mode with
      | .parallel => some totalTime
      | .sequential => none }

lemma foldl_add_eq_sum (a : ℚ) (l : List ℚ) :
    l.foldl (· + ·) a = a + l.sum := by
  induction l generalizing a with
  | nil => simp
  | cons x xs ih => rw [List.foldl_cons, ih, List.sum_cons]; ring

/-- C2 counterexample: in sequential mode the returned `parallelTime` is
absent (`undefined`), not `max + 500 = 1500` as the claim requires for
both modes. -/
theorem c2_stats_counterexample :
    (calculateStats [1000] .sequential none 4).parallelTime = none ∧
      (none : Option (WithBot ℚ)) ≠ some (((1500 : ℚ) : WithBot ℚ)) := by
  exact ⟨rfl, by simp⟩

/-- C2 (amended): for every non-empty list of per-segment times and both
modes (with the optional measured-sequential argument omitted),
`calculateStats` returns `sequentialTime = sum`, and `totalTime = sum` in
sequential mode and `totalTime = max + 500` in parallel mode; the
`parallelTime` field equals `max + 500` in parallel mode but is absent
(`undefined`) in sequential mode. -/
theorem c2_stats_totals (ts : List ℚ) (m : ProcessingMode) (c : ℕ)
    (h : ts ≠ []) :
    ∃ M : ℚ, ts.maximum = (M : WithBot ℚ) ∧ M ∈ ts ∧ (∀ t ∈ ts, t ≤ M) ∧
      (calculateStats ts m none c).sequentialTime = ((ts.sum : ℚ) : WithBot ℚ) ∧
      (calculateStats ts m none c).totalTime =
        (match m with
          | .sequential => ((ts.sum : ℚ) : WithBot ℚ)
          | .parallel => ((M + 500 : ℚ) : WithBot ℚ)) ∧
      (calculateStats ts m none c).parallelTime =
        (match m with
          | .parallel => some (((M + 500 : ℚ) : WithBot ℚ))
          | .sequential => none) := by
  obtain ⟨M, hM⟩ : ∃ M : ℚ, ts.maximum = (M : WithBot ℚ) := by
    cases hmax : ts.maximum with
    | bot => exact absurd hmax (List.maximum_ne_bot_of_ne_nil h)
    | coe M => exact ⟨M, rfl⟩
  have hmem : M ∈ ts := List.maximum_mem hM
  have hle : ∀ t ∈ ts, t ≤ M := fun t ht => by
    exact_mod_cast List.le_maximum_of_mem' ht |>.trans_eq hM
  have hsum : ts.foldl (· + ·) 0 = ts.sum := by
    rw [foldl_add_eq_sum, zero_add]
  have hcoe : (M : WithBot ℚ) + ((500 : ℚ) : WithBot ℚ)
      = ((M + 500 : ℚ) : WithBot ℚ) := by norm_cast
  refine ⟨M, hM, hmem, hle, ?_, ?_, ?_⟩ <;> cases m <;>
    simp [calculateStats, hsum, hM, hcoe]

/-- C2 witness: the amended theorem applied at the concrete input
`[1000]`, parallel mode. -/
theorem c2_stats_totals_witness :
    ([1000] : List ℚ) ≠ [] ∧
      (∃ M : ℚ, ([1000] : List ℚ).maximum = (M : WithBot ℚ) ∧
        M ∈ ([1000] : List ℚ) ∧ (∀ t ∈ ([1000] : List ℚ), t ≤ M) ∧
        (calculateStats [1000] .parallel none 4).sequentialTime
          = ((([1000] : List ℚ).sum : ℚ) : WithBot ℚ) ∧
        (calculateStats [1000] .parallel none 4).totalTime
          = ((M + 500 : ℚ) : WithBot ℚ) ∧
        (calculateStats [1000] .parallel none 4).parallelTime
          = some (((M + 500 : ℚ) : WithBot ℚ))) :=
  ⟨by simp, c2_stats_totals [1000] .parallel 4 (by simp)⟩

/-- C3 counterexample: at times `[1000]` in sequential mode the code
returns `speedupFactor = 1`, while the claimed what-if-parallel figure is
`round(1000 / 1500, 2) = 0.67`. -/
theorem c3_speedup_counterexample :
    (calculateStats [1000] .sequential none 4).speedupFactor = 1 ∧
      (jsRound ((1000 : ℚ) / (1000 + 500) * 100) : ℚ) / 100 = 67 / 100 ∧
      (1 : ℚ) ≠ 67 / 100 := by
  refine ⟨?_, ?_, by norm_num⟩
  · norm_num [calculateStats, jsRound, Int.floor_eq_iff]
  · norm_num [jsRound, Int.floor_eq_iff]

/-- C3 (amended): with the optional baseline argument omitted,
`speedupFactor` equals `round(sum / (max + 500), 2)` in parallel mode
only; in sequential mode the code returns the constant `1`, not the
hypothetical what-if-parallel ratio. -/
theorem c3_speedup_formula (ts : List ℚ) (c : ℕ) (h : ts ≠ [])
    (_hpos : ∀ t ∈ ts, 0 < t) :
    ∃ M : ℚ, ts.maximum = (M : WithBot ℚ) ∧
      (calculateStats ts .parallel none c).speedupFactor
        = (jsRound (ts.sum / (M + 500) * 100) : ℚ) / 100 ∧
      (calculateStats ts .sequential none c).speedupFactor = 1 := by
  obtain ⟨M, hM⟩ : ∃ M : ℚ, ts.maximum = (M : WithBot ℚ) := by
    cases hmax : ts.maximum with
    | bot => exact absurd hmax (List.maximum_ne_bot_of_ne_nil h)
    | coe M => exact ⟨M, rfl⟩
  have hsum : ts.foldl (· + ·) 0 = ts.sum := by
    rw [foldl_add_eq_sum, zero_add]
  have hcoe : (M : WithBot ℚ) + ((500 : ℚ) : WithBot ℚ)
      = ((M + 500 : ℚ) : WithBot ℚ) := by norm_cast
  refine ⟨M, hM, ?_, ?_⟩
  · simp only [calculateStats, hsum, hM]
    rw [hcoe, divByTotal_coe]
  · norm_num [calculateStats, jsRound, Int.floor_eq_iff]

/-- C3 witness: the amended theorem applied at the concrete times
`[900, 1100, 950, 1000]`; there `sum = 3950`, `max + 500 = 1600`, and the
returned speedup is `round(3950 / 1600, 2) = 2.47`. -/
theorem c3_speedup_formula_witness :
    (([900, 1100, 950, 1000] : List ℚ) ≠ [] ∧
      ∀ t ∈ ([900, 1100, 950, 1000] : List ℚ), 0 < t) ∧
      (∃ M : ℚ, ([900, 1100, 950, 1000] : List ℚ).maximum = (M : WithBot ℚ) ∧
        (calculateStats [900, 1100, 950, 1000] .parallel none 4).speedupFactor
          = (jsRound (([900, 1100, 950, 1000] : List ℚ).sum / (M + 500) * 100) : ℚ) / 100 ∧
        (calculateStats [900, 1100, 950, 1000] .sequential none 4).speedupFactor = 1) ∧
      (calculateStats [900, 1100, 950, 1000] .parallel none 4).speedupFactor
        = 247 / 100 := by
  refine ⟨⟨by simp, by simp⟩,
    c3_speedup_formula [900, 1100, 950, 1000] 4 (by simp) (by simp), ?_⟩
  have hmax : ([900, 1100, 950, 1000] : List ℚ).maximum
      = ((1100 : ℚ) : WithBot ℚ) := by
    rw [List.maximum_eq_coe_iff]
    norm_num
  have hcoe : ((1100 : ℚ) : WithBot ℚ) + ((500 : ℚ) : WithBot ℚ)
      = ((1600 : ℚ) : WithBot ℚ) := by norm_cast
  have hfold : List.foldl (· + ·) (0 : ℚ) [900, 1100, 950, 1000] = 3950 := by
    norm_num
  simp only [calculateStats, hmax, hfold]
  rw [hcoe, divByTotal_coe]
  norm_num [jsRound, Int.floor_eq_iff]

/-- C4 counterexample: for the empty list in sequential mode the code
returns `speedupFactor = 1` (not `0`) and no `parallelTime` field value
(not the merge overhead `500`). -/
theorem c4_empty_counterexample :
    (calculateStats [] .sequential none 4).speedupFactor = 1 ∧
      (calculateStats [] .sequential none 4).parallelTime = none ∧
      (1 : ℚ) ≠ 0 := by
  refine ⟨?_, rfl, by norm_num⟩
  norm_num [calculateStats, jsRound, Int.floor_eq_iff]

/-- C4 (amended): for the empty per-segment list (baseline argument
omitted) the code returns `sequentialTime = 0` in both modes; in
sequential mode `parallelTime` is absent and `speedupFactor = 1`; in
parallel mode `Math.max()` is `-Infinity` (`⊥`), so `totalTime` and the
`parallelTime` field are `-Infinity` (not the merge overhead `500`), and
`speedupFactor = 0` (`0 / -Infinity` is `-0`). -/
theorem c4_empty_stats (c : ℕ) :
    (calculateStats [] .sequential none c).sequentialTime = ((0 : ℚ) : WithBot ℚ) ∧
    (calculateStats [] .sequential none c).totalTime = ((0 : ℚ) : WithBot ℚ) ∧
    (calculateStats [] .sequential none c).parallelTime = none ∧
    (calculateStats [] .sequential none c).speedupFactor = 1 ∧
    (calculateStats [] .parallel none c).sequentialTime = ((0 : ℚ) : WithBot ℚ) ∧
    (calculateStats [] .parallel none c).totalTime = ⊥ ∧
    (calculateStats [] .parallel none c).parallelTime = some ⊥ ∧
    (calculateStats [] .parallel none c).speedupFactor = 0 := by
  refine ⟨rfl, rfl, rfl, ?_, rfl, ?_, ?_, ?_⟩
  · norm_num [calculateStats, jsRound, Int.floor_eq_iff]
  · simp [calculateStats, List.maximum_nil]
  · simp [calculateStats, List.maximum_nil]
  · norm_num [calculateStats, List.maximum_nil, divByTotal, jsRound,
      Int.floor_eq_iff]

/-! ### Scheduling policies (`processSequentially`, `processParallel`) -/

/-- The elapsed-time list produced by the `processSequentially` loop: for
each segment in array order, `times.push(await simulateSegmentProcessing(
segment, ...))`.  The simulated elapsed time is an oracle
`elapsed : VideoSegment → ℚ` (it depends on wall-clock timing and
`Math.random()`). -/
def processSequentially (segments : List VideoSegment)
    (elapsed : VideoSegment → ℚ) : List ℚ :=
  segments.foldl (fun times s => times ++ [elapsed s]) []

/-- Result-slot writes of in-flight parallel tasks: the task at index `i`
completes and stores its elapsed time in slot `i`; `arrival` is the order
in which tasks complete. -/
def fillSlots (time : ℕ → ℚ) (slots : List (Option ℚ))
    (arrival : List ℕ) : List (Option ℚ) :=
  arrival.foldl (fun acc i => acc.set i (some (time i))) slots

/-- The `processParallel` join as `Promise.all` resolves it: one result
slot per mapped task (`segments.map(async (segment) => ...)`), each task
writing its own slot on completion, in an arbitrary completion order
`arrival` (staggered starts, jitter and interleaving make it any
permutation of the task indices); `Promise.all` resolves with the slots
in task order, not completion order. -/
def processParallel (segments : List VideoSegment)
    (elapsed : VideoSegment → ℚ) (arrival : List ℕ) : List (Option ℚ) :=
  fillSlots (fun i => (segments.map elapsed).getD i 0)
    (List.replicate segments.length none) arrival

lemma foldl_push_eq_append (elapsed : VideoSegment → ℚ)
    (segments : List VideoSegment) (acc : List ℚ) :
    segments.foldl (fun times s => times ++ [elapsed s]) acc
      = acc ++ segments.map elapsed := by
  induction segments generalizing acc with
  | nil => simp
  | cons s ss ih => simp [ih]

lemma processSequentially_eq_map (segments : List VideoSegment)
    (elapsed : VideoSegment → ℚ) :
    processSequentially segments elapsed = segments.map elapsed := by
  rw [processSequentially, foldl_push_eq_append, List.nil_append]

lemma fillSlots_getElem? (time : ℕ → ℚ) (slots : List (Option ℚ))
    (arrival : List ℕ) (j : ℕ) :
    (fillSlots time slots arrival)[j]? =
      if j ∈ arrival ∧ j < slots.length then some (some (time j))
      else slots[j]? := by
  induction arrival generalizing slots with
  | nil => simp [fillSlots]
  | cons a rest ih =>
    rw [show fillSlots time slots (a :: rest)
        = fillSlots time (slots.set a (some (time a))) rest from rfl, ih]
    rw [List.length_set]
    by_cases hrest : j ∈ rest
    · by_cases hlen : j < slots.length
      · simp [hrest, hlen]
      · have h1 : (slots.set a (some (time a)))[j]? = none :=
          List.getElem?_eq_none
            (by simpa [List.length_set] using Nat.le_of_not_lt hlen)
        have h2 : slots[j]? = none :=
          List.getElem?_eq_none (Nat.le_of_not_lt hlen)
        simp [hrest, hlen, h1, h2]
    · by_cases haj : a = j
      · subst haj
        by_cases hlen : a < slots.length
        · simp [hrest, hlen, List.getElem?_set]
        · have hnone : slots[a]? = none :=
            List.getElem?_eq_none (Nat.le_of_not_lt hlen)
          simp [hrest, hlen, List.getElem?_set, hnone]
      · rw [List.getElem?_set_ne haj]
        have hne : j ∉ a :: rest := by
          intro h
          rcases List.mem_cons.mp h with h | h
          · exact haj h.symm
          · exact hrest h
        rw [if_neg (fun hc => hrest hc.1), if_neg (fun hc => hne hc.1)]

/-- C5: for every segment list (with segments listed in id order, as the
partitioner produces them), `processSequentially` returns the per-segment
elapsed times in segment order, and `processParallel` resolves with the
same times in the same order for every completion order `arrival` (any
permutation of the task indices): slot `i` holds the time of the segment
with id `i`, regardless of completion order. -/
theorem c5_order_preservation (segments : List VideoSegment)
    (elapsed : VideoSegment → ℚ) (arrival : List ℕ)
    (harr : arrival.Perm (List.range segments.length))
    (hid : ∀ i : ℕ, ∀ hi : i < segments.length,
      (segments.get ⟨i, hi⟩).id = i) :
    processSequentially segments elapsed = segments.map elapsed ∧
    (processSequentially segments elapsed).length = segments.length ∧
    processParallel segments elapsed arrival
      = (segments.map elapsed).map some ∧
    (∀ i : ℕ, ∀ hi : i < segments.length,
      (processSequentially segments elapsed)[i]?
          = some (elapsed (segments.get ⟨i, hi⟩)) ∧
      (processParallel segments elapsed arrival)[i]?
          = some (some (elapsed (segments.get ⟨i, hi⟩))) ∧
      (segments.get ⟨i, hi⟩).id = i) := by
  have hseq := processSequentially_eq_map segments elapsed
  have hmem : ∀ j : ℕ, j ∈ arrival ↔ j < segments.length := by
    intro j
    rw [harr.mem_iff, List.mem_range]
  have hpar : processParallel segments elapsed arrival
      = (segments.map elapsed).map some := by
    apply List.ext_getElem?
    intro j
    rw [processParallel, fillSlots_getElem?, List.length_replicate]
    by_cases hj : j < segments.length
    · have hget : (segments.map elapsed)[j]?
          = some (elapsed (segments.get ⟨j, hj⟩)) := by
        rw [List.getElem?_map, List.getElem?_eq_getElem hj]
        rfl
      simp [hmem j, hj, List.getD_eq_getElem?_getD, hget, List.getElem?_map]
    · have h0 : segments[j]? = none :=
        List.getElem?_eq_none (Nat.le_of_not_lt hj)
      simp [hj, h0, List.getElem?_replicate, List.getElem?_map]
  refine ⟨hseq, by rw [hseq, List.length_map], hpar, ?_⟩
  intro i hi
  have hget : (segments.map elapsed)[i]?
      = some (elapsed (segments.get ⟨i, hi⟩)) := by
    rw [List.getElem?_map, List.getElem?_eq_getElem hi]
    rfl
  refine ⟨by rw [hseq, hget], ?_, hid i hi⟩
  rw [hpar, List.getElem?_map, hget]
  rfl

/-- Concrete three-segment list of a 25-second video (the partitioner's
output shape), used to instantiate the scheduling theorem. -/
def demoSegments : List VideoSegment :=
  [{ id := 0, status := .pending, progress := 0, startTime := 0,
     endTime := 10, processingTime := none },
   { id := 1, status := .pending, progress := 0, startTime := 10,
     endTime := 20, processingTime := none },
   { id := 2, status := .pending, progress := 0, startTime := 20,
     endTime := 25, processingTime := none }]

/-- C5 witness: the theorem applied to the three segments of a 25-second
video with completion (arrival) order `[2, 0, 1]` — the parallel result
slots still come out in id order `0, 1, 2`. -/
theorem c5_order_preservation_witness :
    ([2, 0, 1] : List ℕ).Perm (List.range demoSegments.length) ∧
      processParallel demoSegments
          (fun s => (s.id : ℚ) * 100 + 700) [2, 0, 1]
        = ((demoSegments.map (fun s => (s.id : ℚ) * 100 + 700)).map some) := by
  refine ⟨by decide, ?_⟩
  exact (c5_order_preservation demoSegments
    (fun s => (s.id : ℚ) * 100 + 700) [2, 0, 1] (by decide)
    (by decide)).2.2.1

/-! ### Segment processing simulator (`simulateSegmentProcessing`) -/

/-- `const steps = 20` inside `simulateSegmentProcessing`. -/
def PROGRESS_STEPS : ℕ := 20

/-- The percentages delivered to `onProgress`: the interval callback
increments `currentStep` from `1` to `steps` and emits
`(currentStep / steps) * 100` each tick. -/
def progressSequence (steps : ℕ) : List ℚ :=
  (List.range steps).map (fun k => (((k + 1 : ℕ) : ℚ) / (steps : ℚ)) * 100)

/-- The per-segment update trace either policy produces via
`onSegmentUpdate`: first `{...segment, status: 'processing', progress: 0}`,
then one processing update per simulator progress callback, finally
`{...segment, status: 'completed', progress: 100, processingTime: time}`. -/
def segmentUpdateTrace (s : VideoSegment) (time : ℚ) : List VideoSegment :=
  { s with status := .processing, progress := 0 } ::
    ((progressSequence PROGRESS_STEPS).map
        (fun p => { s with status := .processing, progress := p })
      ++ [{ s with
            status := .completed
            progress := 100
            processingTime := some time }])

lemma progressSequence_mono {a b : ℕ} (hab : a < b) :
    (((a + 1 : ℕ) : ℚ) / ((PROGRESS_STEPS : ℕ) : ℚ)) * 100
      ≤ (((b + 1 : ℕ) : ℚ) / ((PROGRESS_STEPS : ℕ) : ℚ)) * 100 := by
  have h1 : ((a + 1 : ℕ) : ℚ) ≤ ((b + 1 : ℕ) : ℚ) := by
    exact_mod_cast Nat.succ_le_succ (le_of_lt hab)
  have hsteps : ((PROGRESS_STEPS : ℕ) : ℚ) = 20 := by
    norm_num [PROGRESS_STEPS]
  rw [hsteps]
  linarith

/-- C6: for one segment processed once, the progress values delivered to
the callback are non-decreasing, consist of `20` equal steps with
`percent = step / 20 * 100`, and terminate at exactly `100`; the final
(completed) update of the segment's trace carries `progress = 100`. -/
theorem c6_monotone_progress (s : VideoSegment) (time : ℚ) (k : ℕ)
    (hk : k < PROGRESS_STEPS) :
    List.Chain' (· ≤ ·)
        ((segmentUpdateTrace s time).map VideoSegment.progress) ∧
    (progressSequence PROGRESS_STEPS).length = 20 ∧
    (progressSequence PROGRESS_STEPS)[k]?
      = some ((((k + 1 : ℕ) : ℚ) / 20) * 100) ∧
    (progressSequence PROGRESS_STEPS).getLast? = some 100 ∧
    ((segmentUpdateTrace s time).getLast?).map VideoSegment.progress
      = some 100 ∧
    ((segmentUpdateTrace s time).getLast?).map VideoSegment.status
      = some .completed := by
  have hmap : (segmentUpdateTrace s time).map VideoSegment.progress
      = 0 :: (progressSequence PROGRESS_STEPS ++ [100]) := by
    simp only [segmentUpdateTrace, List.map_cons, List.map_append,
      List.map_singleton, List.map_map]
    exact congrArg (fun l => 0 :: (l ++ [(100 : ℚ)])) (List.map_id _)
  have hmem_le100 : ∀ p ∈ progressSequence PROGRESS_STEPS, p ≤ 100 := by
    intro p hp
    simp only [progressSequence, List.mem_map, List.mem_range] at hp
    obtain ⟨j, hj, rfl⟩ := hp
    have hj20 : ((j + 1 : ℕ) : ℚ) ≤ ((PROGRESS_STEPS : ℕ) : ℚ) := by
      exact_mod_cast Nat.succ_le_of_lt hj
    have hsteps : ((PROGRESS_STEPS : ℕ) : ℚ) = 20 := by
      norm_num [PROGRESS_STEPS]
    rw [hsteps] at hj20 ⊢
    linarith
  have hmem_nonneg : ∀ p ∈ progressSequence PROGRESS_STEPS, (0 : ℚ) ≤ p := by
    intro p hp
    simp only [progressSequence, List.mem_map, List.mem_range] at hp
    obtain ⟨j, hj, rfl⟩ := hp
    positivity
  refine ⟨?_, ?_, ?_, ?_, ?_, ?_⟩
  · rw [hmap, List.chain'_iff_pairwise]
    refine List.Pairwise.cons ?_ ?_
    · intro q hq
      rcases List.mem_append.mp hq with h | h
      · exact hmem_nonneg q h
      · rcases List.mem_singleton.mp h with rfl
        norm_num
    · rw [List.pairwise_append]
      refine ⟨?_, List.pairwise_singleton _ _, ?_⟩
      · rw [progressSequence, List.pairwise_map]
        exact (List.pairwise_lt_range _).imp fun hab =>
          progressSequence_mono hab
      · intro p hp q hq
        rcases List.mem_singleton.mp hq with rfl
        exact hmem_le100 p hp
  · simp [progressSequence, PROGRESS_STEPS]
  · have hsteps : ((PROGRESS_STEPS : ℕ) : ℚ) = 20 := by
      norm_num [PROGRESS_STEPS]
    simp [progressSequence, List.getElem?_map, List.getElem?_range, hk,
      hsteps]
  · have h20 : PROGRESS_STEPS = 19 + 1 := rfl
    rw [progressSequence, h20, List.range_succ, List.map_append,
      List.map_singleton, List.getLast?_concat]
    norm_num
  · rw [segmentUpdateTrace, ← List.cons_append, List.getLast?_concat]
    rfl
  · rw [segmentUpdateTrace, ← List.cons_append, List.getLast?_concat]
    rfl

/-- C6 witness: the theorem applied to a concrete segment, elapsed time
`750`, and progress step index `k = 7`. -/
theorem c6_monotone_progress_witness :
    7 < PROGRESS_STEPS ∧
      (progressSequence PROGRESS_STEPS)[7]?
        = some ((((7 + 1 : ℕ) : ℚ) / 20) * 100) :=
  ⟨by decide,
    (c6_monotone_progress
      { id := 0, status := .pending, progress := 0, startTime := 0,
        endTime := 10, processingTime := none }
      750 7 (by decide)).2.2.1⟩

/-- `filter === 'edge' ? 1.5 : filter === 'blur' ? 1.3 : 1` from
`simulateSegmentProcessing`. -/
def filterMultiplier (filter : VideoFilter) : ℚ :=
  if filter = .edge then 1.5 else if filter = .blur then 1.3 else 1

/-- The scheduled simulated duration (`finalTime`) of
`simulateSegmentProcessing`: `totalTime = SIMULATED_PROCESSING_BASE *
filterMultiplier * ((segment.endTime - segment.startTime) / 10)`, plus
`variance = Math.random() * 200 - 100`, floored by
`Math.max(500, totalTime + variance)`.  `Math.random()` is the explicit
parameter `r ∈ [0, 1)`. -/
def simulateFinalTime (segment : VideoSegment) (filter : VideoFilter)
    (r : ℚ) : ℚ :=
  let baseTime := SIMULATED_PROCESSING_BASE
  let segmentDuration := segment.endTime - segment.startTime
  let totalTime := baseTime * filterMultiplier filter * (segmentDuration / 10)
  let variance := r * 200 - 100
  max 500 (totalTime + variance)

/-- C7: for every segment, filter and random draw `r ∈ [0, 1)`, the
scheduled simulated duration equals
`max(500, 800 * costModifier * ((endTime - startTime) / 10) + jitter)`
for some jitter in `[-100, 100)`; the cost modifier is `1` in the default
(grayscale / colorboost) cases and at most `1.5` for every filter; the
result never falls below the `500` ms floor. -/
theorem c7_simulated_duration (segment : VideoSegment)
    (filter : VideoFilter) (r : ℚ) (h0 : 0 ≤ r) (h1 : r < 1) :
    ∃ jitter : ℚ, -100 ≤ jitter ∧ jitter < 100 ∧
      simulateFinalTime segment filter r
        = max 500 (800 * filterMultiplier filter
            * ((segment.endTime - segment.startTime) / 10) + jitter) ∧
      500 ≤ simulateFinalTime segment filter r ∧
      filterMultiplier .grayscale = 1 ∧
      filterMultiplier .colorboost = 1 ∧
      (∀ f : VideoFilter, filterMultiplier f ≤ 1.5) := by
  refine ⟨r * 200 - 100, by linarith, by linarith, rfl,
    le_max_left _ _, rfl, rfl, ?_⟩
  intro f
  cases f
  · rw [filterMultiplier, if_neg (by decide), if_neg (by decide)]
    norm_num
  · rw [filterMultiplier, if_neg (by decide), if_pos rfl]
    norm_num
  · rw [filterMultiplier, if_pos rfl]
  · rw [filterMultiplier, if_neg (by decide), if_neg (by decide)]
    norm_num

/-- C7 witness: the theorem applied to the first segment of a 25-second
video, the `edge` filter, and random draw `r = 0`. -/
theorem c7_simulated_duration_witness :
    (0 : ℚ) ≤ 0 ∧ (0 : ℚ) < 1 ∧
      ∃ jitter : ℚ, -100 ≤ jitter ∧ jitter < 100 ∧
        simulateFinalTime
            { id := 0, status := .pending, progress := 0, startTime := 0,
              endTime := 10, processingTime := none } .edge 0
          = max 500 (800 * filterMultiplier .edge * (((10 : ℚ) - 0) / 10)
              + jitter) ∧
        500 ≤ simulateFinalTime
            { id := 0, status := .pending, progress := 0, startTime := 0,
              endTime := 10, processingTime := none } .edge 0 ∧
        filterMultiplier .grayscale = 1 ∧
        filterMultiplier .colorboost = 1 ∧
        (∀ f : VideoFilter, filterMultiplier f ≤ 1.5) :=
  ⟨le_refl 0, by simp,
    c7_simulated_duration
      { id := 0, status := .pending, progress := 0, startTime := 0,
        endTime := 10, processingTime := none } .edge 0 (le_refl 0)
      (by simp)⟩

/-! ### Job state container (`updateSegment`, `handleReset` on the page) -/

/-- Job lifecycle status, from `src/types/video.ts` (`VideoJob.status`). -/
inductive JobStatus
  | idle
  | uploading
  | converting
  | splitting
  | processing
  | merging
  | completed
  | error
deriving DecidableEq, Repr

/-- The job state held by the page, from `src/types/video.ts` (`VideoJob`);
the browser `File` object and object-URL string fields, which the state
logic never reads, are omitted. -/
structure VideoJob where
  id : String
  mode : ProcessingMode
  segments : List VideoSegment
  status : JobStatus
deriving DecidableEq, Repr

/-- `updateSegment` from the page: `setJob(prev => prev ? { ...prev,
segments: prev.segments.map(s => s.id === updatedSegment.id ?
updatedSegment : s) } : prev)` — replace-by-segment-id with no check of
which job (or run) the update belongs to. -/
def updateSegment (prev : Option VideoJob)
    (updatedSegment : VideoSegment) : Option VideoJob :=
  match prev with
  | none => none
  | some p => some { p with
      segments := p.segments.map
        (fun s => if s.id = updatedSegment.id then updatedSegment else s) }

/-- `handleReset` from the page: `setJob(null)` (the object-URL revocation
and elapsed-timer reset have no effect on the job state value). -/
def handleReset : Option VideoJob := none

/-- The new job built by `handleFileSelect`: fresh id, current mode,
segments from `createVideoSegments(duration)`, status `idle`. -/
def newJob (jobId : String) (m : ProcessingMode) (duration : ℚ) :
    VideoJob :=
  { id := jobId
    mode := m
    segments := createVideoSegments duration
    status := .idle }

lemma createVideoSegments_25 : createVideoSegments 25 = demoSegments := by
  have h3 : (⌈(25 : ℚ) / SEGMENT_DURATION⌉).toNat = 3 := by
    have : ⌈(25 : ℚ) / SEGMENT_DURATION⌉ = 3 := by
      rw [show SEGMENT_DURATION = (10 : ℚ) from rfl, Int.ceil_eq_iff]
      norm_num
    rw [this]
    rfl
  rw [createVideoSegments]
  simp only [h3, List.range_succ, List.range_zero, List.nil_append,
    List.map_append, List.map_cons, List.map_nil, List.singleton_append,
    List.cons_append]
  rw [demoSegments]
  norm_num [SEGMENT_DURATION, min_def]

/-- C9: a stale segment update that arrives while the job is reset
(`null`) is silently dropped, but one that arrives after a new job has
been created is applied to the new job: `updateSegment` matches segments
by id only and never checks job identity, so the new job's segment `0`
is overwritten with the stale `processing / 42` data instead of staying
at its initial `pending / 0` state. -/
theorem c9_stale_update_hits_new_job :
    (updateSegment handleReset
        { id := 0, status := .processing, progress := 42, startTime := 0,
          endTime := 10, processingTime := none } = none) ∧
    ((newJob "job_2" .parallel 25).segments[0]? = some
        { id := 0, status := .pending, progress := 0, startTime := 0,
          endTime := 10, processingTime := none }) ∧
    ((updateSegment (some (newJob "job_2" .parallel 25))
        { id := 0, status := .processing, progress := 42, startTime := 0,
          endTime := 10, processingTime := none }).bind
      (fun j => j.segments[0]?) = some
        { id := 0, status := .processing, progress := 42, startTime := 0,
          endTime := 10, processingTime := none }) := by
  refine ⟨rfl, ?_, ?_⟩
  · rw [newJob]
    simp only [createVideoSegments_25, demoSegments]
    rfl
  · rw [newJob]
    simp only [updateSegment, createVideoSegments_25, demoSegments]
    rfl

end VideoRender
